import Mathlib

/-!
# Emergency cache middleware: a shallow embedding of `cache.go`

The middleware of `cache.go` is embedded as pure functions that return, next to
their Go result, the list of effects they perform (log lines, store reads,
dispatched store writes, the call of the next handler, calls on the client's
`http.ResponseWriter`).

Conventions.

* A Go `string` is a byte sequence.  It is embedded as the `String` whose
  characters are its bytes, so every Go string has a representative and ASCII
  literals read as themselves.  Only concatenation, equality and prefix tests
  are used on strings, and those act on such representatives as they do on bytes.
* A Go `[]byte` is a `List UInt8`; where the code distinguishes `nil` from a
  slice (the result of `Get`, the argument of `Set`) the embedding uses `Option`.
* A Go `error` is an `Option String`: `none` is `nil`, `some e` carries the text.
* The functions of the Go standard library the code calls (`encoding/json`,
  `time.Now`, the canonical form of a header name, the order in which `range`
  visits a map) are not part of the repository; they are the fields of `Lib`
  and every theorem holds for all of them.
-/

namespace EmergencyCache

/-- Go `[]byte`. -/
abbrev Bytes := List UInt8

/-- Go `http.Header`, a `map[string][]string`, as an association list. -/
abbrev Header := List (String × List String)

/-- Struct `Config` of `cache.go`. -/
structure Config where
  EmergencyMode : Bool
  Path : String
  BypassHeader : String
  CacheableHeader : String
  Debug : Bool
deriving DecidableEq, Repr

/-- Function `CreateConfig` of `cache.go`; `Path` keeps its zero value. -/
def CreateConfig : Config :=
  { EmergencyMode := false
    Path := ""
    BypassHeader := "X-Emergency-Cache-Control"
    CacheableHeader := "X-Emergency-Cacheable"
    Debug := false }

/-- Struct `cacheData` of `cache.go`. -/
structure cacheData where
  Status : Int
  Headers : Header
  Body : Bytes
  Created : Nat
deriving DecidableEq, Repr

/-- The fields of `url.URL` the code reads. -/
structure URL where
  Path : String
  RawQuery : String
deriving DecidableEq, Repr

/-- The fields of `http.Request` the code reads. -/
structure Request where
  Host : String
  URL : URL
  Header : Header
deriving DecidableEq, Repr

/-- Standard-library functions called by `cache.go`, taken as parameters.
`jsonMarshal d` is the pair `(b, err)` returned by `json.Marshal(d)`;
`jsonUnmarshal b` is the record held by a zero `cacheData` after
`json.Unmarshal(b, &data)` together with the returned error; `now` is
`uint64(time.Now().Unix())`; `canon` is `textproto.CanonicalMIMEHeaderKey`;
`rangeOrder h` lists the entries of the map `h` in the order a `range` loop
visits them. -/
structure Lib where
  canon : String → String
  jsonMarshal : cacheData → Option Bytes × Option String
  jsonUnmarshal : Bytes → cacheData × Option String
  now : Nat
  rangeOrder : Header → Header

/-- Interface `CacheSystem` of `cache.go`, read side: `Get key` is the pair
`(b, err)` the store answers. `Set` is only ever dispatched on a goroutine and
its result dropped, so it appears as an effect. -/
structure CacheSystem where
  Get : String → Option Bytes × Option String

/-- Map read `h[k]`: the zero value (no values) when the key is absent. -/
def Header.values (h : Header) (k : String) : List String :=
  (h.lookup k).getD []

/-- Map write `h[k] = vs`. -/
def Header.assign (h : Header) (k : String) (vs : List String) : Header :=
  if h.any (fun e => e.1 == k) then h.map (fun e => if e.1 == k then (k, vs) else e)
  else h ++ [(k, vs)]

/-- Map removal `delete(h, k)`. -/
def Header.delete (h : Header) (k : String) : Header :=
  h.filter (fun e => e.1 != k)

/-- Method `http.Header.Get`: the first value stored under the canonical form
of `key`, the empty string when there is none. -/
def Header.Get (lib : Lib) (h : Header) (key : String) : String :=
  match h.values (lib.canon key) with
  | [] => ""
  | v :: _ => v

/-- Go `strings.HasPrefix`. -/
def startsWith (s p : String) : Bool :=
  p.data.isPrefixOf s.data

/-- A call made on an `http.ResponseWriter`: a change of the map returned by
`Header()` (through the methods `Add`, `Set`, `Del` of `http.Header` or by a
plain map write or removal), `WriteHeader`, or `Write`. -/
inductive WriterCall where
  | headerAdd (k v : String)
  | headerSet (k v : String)
  | headerDel (k : String)
  | headerAssign (k : String) (vs : List String)
  | headerDelete (k : String)
  | WriteHeader (s : Int)
  | Write (p : Bytes)
deriving DecidableEq, Repr

/-- What one call does to the header map of the writer it reaches. -/
def Header.apply (lib : Lib) (h : Header) : WriterCall → Header
  | .headerAdd k v => h.assign (lib.canon k) (h.values (lib.canon k) ++ [v])
  | .headerSet k v => h.assign (lib.canon k) [v]
  | .headerDel k => h.delete (lib.canon k)
  | .headerAssign k vs => h.assign k vs
  | .headerDelete k => h.delete k
  | .WriteHeader _ => h
  | .Write _ => h

/-- The effects of serving a request, in the order they happen. `storeSet` is
the dispatch `go m.cache.Set(key, b)`; `next` is the call of `m.next.ServeHTTP`;
`client c` is a call reaching the client's `http.ResponseWriter`. -/
inductive Effect where
  | log (msg : String)
  | storeGet (key : String)
  | storeSet (key : String) (val : Option Bytes)
  | next
  | client (c : WriterCall)
deriving DecidableEq, Repr

/-- Method `cacheKey` of `cache.go`: the key and the debug line it logs. -/
def cacheKey (cfg : Config) (r : Request) (addQuery : Bool) : String × List Effect :=
  let key := r.Host ++ r.URL.Path
  let key := if r.URL.RawQuery != "" && addQuery then key ++ ("?" ++ r.URL.RawQuery) else key
  (key, if cfg.Debug then [Effect.log ("[Emergency Cache] DEBUG key: " ++ key)] else [])

/-- Method `bypassingHeaders` of `cache.go`. -/
def bypassingHeaders (lib : Lib) (cfg : Config) (r : Request) : Bool :=
  Header.Get lib r.Header cfg.BypassHeader == "no-cache"

/-- Method `cacheable` of `cache.go`; `wHeader` is `w.Header()`. -/
def cacheable (lib : Lib) (cfg : Config) (r : Request) (wHeader : Header) (status : Int) :
    Bool × List Effect :=
  (status == 200 &&
      (Header.Get lib wHeader cfg.CacheableHeader == "true" || startsWith r.URL.Path "/build/"),
    if cfg.Debug then [Effect.log "[Emergency Cache] DEBUG cacheable?"] else [])

/-- The calls `w.Header().Add(key, val)` of the two nested loops of
`sendCacheFile`, entries of the map in the order `range` visits them. -/
def headerAddCalls (entries : Header) : List WriterCall :=
  entries.flatMap fun e => e.2.map fun v => WriterCall.headerAdd e.1 v

/-- The same calls as effects on the client's writer. -/
def headerAdds (entries : Header) : List Effect :=
  (headerAddCalls entries).map Effect.client

/-- Method `sendCacheFile` of `cache.go`. -/
def sendCacheFile (lib : Lib) (cfg : Config) (data : cacheData) : List Effect :=
  (if cfg.Debug then [Effect.log "[Emergency Cache] DEBUG hit"] else []) ++
    headerAdds (lib.rangeOrder data.Headers) ++
    [Effect.client (WriterCall.WriteHeader data.Status), Effect.client (WriterCall.Write data.Body)]

/-- Method `processCachedResponse` of `cache.go`. -/
def processCachedResponse (lib : Lib) (cfg : Config) (b : Option Bytes) (err : Option String) :
    Bool × List Effect :=
  match err, b with
  | none, some bs =>
    let data := (lib.jsonUnmarshal bs).1
    let uerr := (lib.jsonUnmarshal bs).2
    if uerr = none ∧ data.Status = 200 then (true, sendCacheFile lib cfg data) else (false, [])
  | some e, _ => (false, [Effect.log e])
  | none, none => (false, [])

/-- Struct `responseWriter` of `cache.go`, without the embedded writer it
forwards to. -/
structure responseWriter where
  status : Int
  body : Bytes
deriving DecidableEq, Repr

/-- Methods `Header`, `Write` and `WriteHeader` of `responseWriter`: one call
on the wrapper, the new wrapper and what reaches the wrapped writer. `Header()`
hands out the map of the wrapped writer itself, so a change of it reaches the
wrapped writer as it is. -/
def responseWriter.call (rw : responseWriter) (c : WriterCall) : responseWriter × List Effect :=
  match c with
  | .Write p => ({ rw with body := rw.body ++ p }, [Effect.client (WriterCall.Write p)])
  | .WriteHeader s => ({ rw with status := s }, [Effect.client (WriterCall.WriteHeader s)])
  | c => (rw, [Effect.client c])

/-- The next handler running against a `responseWriter`: `calls` are the calls
it makes on the writer it is given, in order. -/
def runCalls : List WriterCall → responseWriter → responseWriter × List Effect
  | [], rw => (rw, [])
  | c :: cs, rw =>
    let step := rw.call c
    let rest := runCalls cs step.1
    (rest.1, step.2 ++ rest.2)

/-- The statement `rw := &responseWriter{ResponseWriter: w}; m.next.ServeHTTP(rw, r)`. -/
def serveNext (next : Request → List WriterCall) (r : Request) : responseWriter × List Effect :=
  let run := runCalls (next r) { status := 0, body := [] }
  (run.1, Effect.next :: run.2)

/-- The map `w.Header()` after the given calls reached the writer `w` whose map
held `w0`. -/
def headerAfter (lib : Lib) (w0 : Header) (calls : List WriterCall) : Header :=
  calls.foldl (Header.apply lib) w0

/-- Method `ServeHTTP` of `cache.go`. `next r` are the calls the next handler
makes on the writer it is given; `w0` is the header map of the client's writer
when the request arrives. -/
def ServeHTTP (lib : Lib) (cfg : Config) (store : CacheSystem)
    (next : Request → List WriterCall) (w0 : Header) (r : Request) : List Effect :=
  if bypassingHeaders lib cfg r then
    (serveNext next r).2
  else
    let key := cacheKey cfg r true
    if cfg.EmergencyMode then
      let dbg1 := if cfg.Debug then [Effect.log ("[Emergency Cache] DEBUG get " ++ key.1)] else []
      let got := store.Get key.1
      let first := processCachedResponse lib cfg got.1 got.2
      let pre := key.2 ++ dbg1 ++ [Effect.storeGet key.1] ++ first.2
      if first.1 then pre
      else
        let keyWithoutQueryParameters := cacheKey cfg r false
        let pre := pre ++ keyWithoutQueryParameters.2
        if keyWithoutQueryParameters.1 != key.1 then
          let dbg2 := if cfg.Debug then
            [Effect.log ("[Emergency Cache] DEBUG get (no query) " ++ keyWithoutQueryParameters.1)]
            else []
          let got := store.Get keyWithoutQueryParameters.1
          let second := processCachedResponse lib cfg got.1 got.2
          let pre := pre ++ dbg2 ++ [Effect.storeGet keyWithoutQueryParameters.1] ++ second.2
          if second.1 then pre
          else pre ++ (serveNext next r).2
        else pre ++ (serveNext next r).2
    else
      let dbg := if cfg.Debug then [Effect.log "[Emergency Cache] DEBUG disabled"] else []
      let rw := serveNext next r
      let wHeader := headerAfter lib w0 (next r)
      let ok := cacheable lib cfg r wHeader rw.1.status
      let pre := key.2 ++ dbg ++ rw.2 ++ ok.2
      if !ok.1 then
        pre ++ (if cfg.Debug then [Effect.log "[Emergency Cache] DEBUG response not cacheable"]
          else [])
      else
        let data : cacheData :=
          { Status := rw.1.status, Headers := wHeader, Body := rw.1.body, Created := lib.now }
        let m := lib.jsonMarshal data
        let errLog := match m.2 with
          | some e => [Effect.log ("Error serializing cache item: " ++ e)]
          | none => []
        pre ++ errLog ++ [Effect.storeSet key.1 m.1] ++
          (if cfg.Debug then [Effect.log ("[Emergency Cache] DEBUG set " ++ key.1)] else [])

/-! ## Observations on a run -/

/-- The keys of the store reads, in order. -/
def storeReads (t : List Effect) : List String :=
  t.filterMap fun e => match e with
    | .storeGet k => some k
    | _ => none

/-- The dispatched store writes, in order. -/
def storeSets (t : List Effect) : List (String × Option Bytes) :=
  t.filterMap fun e => match e with
    | .storeSet k v => some (k, v)
    | _ => none

/-- The calls that reached the client's writer, in order. -/
def clientCalls (t : List Effect) : List WriterCall :=
  t.filterMap fun e => match e with
    | .client c => some c
    | _ => none

/-- How many times the next handler was called. -/
def nextCalls (t : List Effect) : Nat :=
  t.count Effect.next

/-- The run without its log lines. -/
def observable (t : List Effect) : List Effect :=
  t.filter fun e => match e with
    | .log _ => false
    | _ => true

/-- The values a run added under the header name `k`, in order. -/
def addedValues (k : String) (cs : List WriterCall) : List String :=
  cs.filterMap fun c => match c with
    | .headerAdd k1 v => if k1 = k then some v else none
    | _ => none

/-- The status a handler wrote last, `0` when it wrote none: what the
capturing writer holds when the handler returns. -/
def lastStatus (calls : List WriterCall) : Int :=
  ((calls.filterMap fun c => match c with
    | .WriteHeader s => some s
    | _ => none).getLast?).getD 0

/-- The chunks a handler wrote, in call order. -/
def writtenChunks (calls : List WriterCall) : List Bytes :=
  calls.filterMap fun c => match c with
    | .Write p => some p
    | _ => none

/-- The query that takes part in a key: the raw query when it is asked for,
nothing otherwise. -/
def effectiveQuery (rawQuery : String) (addQuery : Bool) : String :=
  if addQuery then rawQuery else ""

/-- A host as a request carries it: it holds no slash and no question mark. -/
def hostWellFormed (host : String) : Prop :=
  '/' ∉ host.data ∧ '?' ∉ host.data

/-- A path that is empty or starts with a slash, and holds no question mark
(a decoded path holds one only when the request wrote it as `%3F`). -/
def pathWellFormed (path : String) : Prop :=
  (path.data.head? = none ∨ path.data.head? = some '/') ∧ '?' ∉ path.data

/-- The status the client receives, after the contract of `http.ResponseWriter`:
the first `WriteHeader` call fixes it, a `Write` that comes before any
`WriteHeader` fixes it at 200, and so does a handler that returns without
either. -/
def responseStatus : List WriterCall → Int
  | [] => 200
  | .WriteHeader s :: _ => s
  | .Write _ :: _ => 200
  | _ :: cs => responseStatus cs

/-- A request with the given host, path and raw query. -/
def mkRequest (host path rawQuery : String) (hdr : Header) : Request :=
  { Host := host, URL := { Path := path, RawQuery := rawQuery }, Header := hdr }

/-- What `cacheKey` puts after host and path. -/
def keySuffix (rawQuery : String) (addQuery : Bool) : String :=
  if rawQuery != "" && addQuery then "?" ++ rawQuery else ""

/-- The full key of the specification: host, path and, when there is a query,
`?` and the raw query. -/
def fullKey (r : Request) : String :=
  if r.URL.RawQuery = "" then r.Host ++ r.URL.Path
  else r.Host ++ r.URL.Path ++ "?" ++ r.URL.RawQuery

/-- The stripped key of the specification: host and path only. -/
def strippedKey (r : Request) : String :=
  r.Host ++ r.URL.Path

/-- A store answer that is a miss in the words of the specification: the read
returned an error, or no bytes, or bytes that fail to deserialise, or a record
whose status is not 200. -/
def Miss (lib : Lib) (got : Option Bytes × Option String) : Prop :=
  got.2 ≠ none ∨ got.1 = none ∨
    ∃ bs, got.1 = some bs ∧
      ((lib.jsonUnmarshal bs).2 ≠ none ∨ (lib.jsonUnmarshal bs).1.Status ≠ 200)

/-- A store answer that is a hit holding the record `data`: bytes, no error,
and the bytes deserialise without error to `data`, whose status is 200. -/
def Hit (lib : Lib) (got : Option Bytes × Option String) (data : cacheData) : Prop :=
  got.2 = none ∧ ∃ bs, got.1 = some bs ∧
    (lib.jsonUnmarshal bs).2 = none ∧ (lib.jsonUnmarshal bs).1 = data ∧ data.Status = 200

/-- The replay of a stored record: every value of every header, then the
status, then the body. -/
def replay (lib : Lib) (data : cacheData) : List Effect :=
  headerAdds (lib.rangeOrder data.Headers) ++
    [Effect.client (WriterCall.WriteHeader data.Status), Effect.client (WriterCall.Write data.Body)]

/-! ## Sample inputs -/

/-- A stored record with a header of two values. -/
def sampleData : cacheData :=
  { Status := 200
    Headers := [("Content-Type", ["text/html"]), ("Set-Cookie", ["a=1", "b=2"])]
    Body := [60, 104, 116, 109, 108, 62]
    Created := 1000 }

/-- A stand-in for the library: header names are their own canonical form, the
payload `[1]` deserialises to `sampleData`, the payload `[2]` to a record of
status 404 and every other payload fails; a record serialises to its body;
`range` visits a map back to front. -/
def sampleLib : Lib :=
  { canon := fun k => k
    jsonMarshal := fun d => (some d.Body, none)
    jsonUnmarshal := fun b =>
      if b = [1] then (sampleData, none)
      else if b = [2] then ({ sampleData with Status := 404 }, none)
      else ({ Status := 0, Headers := [], Body := [], Created := 0 }, some "invalid character")
    now := 1000
    rangeOrder := List.reverse }

/-- A store that holds `sampleData` at the key `a.com/x?y=1` only. -/
def storeFull : CacheSystem :=
  { Get := fun k => if k = "a.com/x?y=1" then (some [1], none) else (none, none) }

/-- A store that holds `sampleData` at the key `a.com/x` only. -/
def storeStripped : CacheSystem :=
  { Get := fun k => if k = "a.com/x" then (some [1], none) else (none, none) }

/-- A store whose every read fails. -/
def storeDown : CacheSystem :=
  { Get := fun _ => (none, some "connection refused") }

/-- The request `GET a.com/x?y=1` without headers. -/
def sampleRequest : Request :=
  mkRequest "a.com" "/x" "y=1" []

/-- The same request carrying the bypass header. -/
def bypassRequest : Request :=
  mkRequest "a.com" "/x" "y=1" [("X-Emergency-Cache-Control", ["no-cache"])]

/-- A handler that marks its response cacheable and answers 200 with body `ok`. -/
def okHandler : Request → List WriterCall :=
  fun _ => [WriterCall.headerSet "X-Emergency-Cacheable" "true", WriterCall.WriteHeader 200,
    WriterCall.Write [111, 107]]

/-- A handler that marks its response cacheable and writes the body `ok`
without calling `WriteHeader`. -/
def writeOnlyHandler : Request → List WriterCall :=
  fun _ => [WriterCall.headerSet "X-Emergency-Cacheable" "true", WriterCall.Write [111, 107]]

/-- The default configuration with emergency mode switched on. -/
def emergencyConfig : Config :=
  { CreateConfig with EmergencyMode := true }

/-! ## The cache key -/

theorem cacheKey_eq_append (cfg : Config) (r : Request) (addQuery : Bool) :
    (cacheKey cfg r addQuery).1 = r.Host ++ r.URL.Path ++ keySuffix r.URL.RawQuery addQuery := by
  unfold cacheKey keySuffix
  by_cases h : (r.URL.RawQuery != "" && addQuery) = true
  · simp [h]
  · simp [h]

theorem keySuffix_eq_effectiveQuery {q1 q2 : String} {i1 i2 : Bool}
    (h : keySuffix q1 i1 = keySuffix q2 i2) : effectiveQuery q1 i1 = effectiveQuery q2 i2 := by
  have hd := congrArg String.data h
  unfold keySuffix at hd
  unfold effectiveQuery
  cases i1 <;> cases i2 <;> by_cases e1 : q1 = "" <;> by_cases e2 : q2 = "" <;>
    simp_all [String.ext_iff]

/-- C1. For every host, path, raw query and flag `addQuery` the key is the
literal concatenation `host ++ path` when `addQuery` is false or the raw query
is empty, and `host ++ path ++ "?" ++ rawQuery` otherwise; the two sample keys
of the specification come out as written; and the key is the same under every
configuration, so the `Debug` flag does not change it. -/
theorem cacheKey_literal (cfg : Config) (host path rawQuery : String) (hdr : Header)
    (addQuery : Bool) :
    (cacheKey cfg (mkRequest host path rawQuery hdr) addQuery).1 =
        (if addQuery = false ∨ rawQuery = "" then host ++ path
          else host ++ path ++ "?" ++ rawQuery)
      ∧ (cacheKey cfg (mkRequest "a.com" "/x" "q=1" hdr) true).1 = "a.com/x?q=1"
      ∧ (cacheKey cfg (mkRequest "a.com" "/x" "q=1" hdr) false).1 = "a.com/x"
      ∧ ∀ cfg1 : Config, (cacheKey cfg1 (mkRequest host path rawQuery hdr) addQuery).1 =
          (cacheKey cfg (mkRequest host path rawQuery hdr) addQuery).1 := by
  refine ⟨?_, rfl, rfl, fun cfg1 => rfl⟩
  unfold cacheKey mkRequest
  cases addQuery <;> by_cases hq : rawQuery = "" <;> simp [hq, String.append_assoc]

/-- C2, as stated, fails. Three pairs of distinct inputs share a key: the flag
is not recoverable when the raw query is empty, the raw query is dropped when
the flag is false, and the boundary between path and query is not recorded (a
decoded path may itself hold a question mark). -/
theorem cacheKey_not_injective :
    ((cacheKey CreateConfig (mkRequest "a.com" "/x" "" []) true).1 =
        (cacheKey CreateConfig (mkRequest "a.com" "/x" "" []) false).1
      ∧ ("a.com", "/x", "", true) ≠ ("a.com", "/x", "", false))
    ∧ ((cacheKey CreateConfig (mkRequest "a.com" "/x" "q=1" []) false).1 =
        (cacheKey CreateConfig (mkRequest "a.com" "/x" "q=2" []) false).1
      ∧ ("a.com", "/x", "q=1", false) ≠ ("a.com", "/x", "q=2", false))
    ∧ ((cacheKey CreateConfig (mkRequest "a.com" "/x?y" "" []) true).1 =
        (cacheKey CreateConfig (mkRequest "a.com" "/x" "y" []) true).1
      ∧ ("a.com", "/x?y", "", true) ≠ ("a.com", "/x", "y", true)) := by
  decide

theorem split_unique {α : Type} (p : α → Prop) (l1 : List α) :
    ∀ (l2 r1 r2 : List α), (∀ a ∈ l1, p a) → (∀ a ∈ l2, p a) →
      (∀ a, r1.head? = some a → ¬ p a) → (∀ a, r2.head? = some a → ¬ p a) →
      l1 ++ r1 = l2 ++ r2 → l1 = l2 ∧ r1 = r2 := by
  induction l1 with
  | nil =>
    intro l2 r1 r2 _ h2 g1 _ h
    cases l2 with
    | nil => exact ⟨rfl, by simpa using h⟩
    | cons b t =>
      simp only [List.nil_append, List.cons_append] at h
      exact absurd (h2 b (List.mem_cons_self b t)) (g1 b (by rw [h]; rfl))
  | cons a t1 ih =>
    intro l2 r1 r2 h1 h2 g1 g2 h
    cases l2 with
    | nil =>
      simp only [List.nil_append, List.cons_append] at h
      exact absurd (h1 a (List.mem_cons_self a t1)) (g2 a (by rw [← h]; rfl))
    | cons b t2 =>
      simp only [List.cons_append, List.cons.injEq] at h
      obtain ⟨e1, e2⟩ := ih t2 r1 r2 (fun x hx => h1 x (List.mem_cons_of_mem a hx))
        (fun x hx => h2 x (List.mem_cons_of_mem b hx)) g1 g2 h.2
      exact ⟨by rw [h.1, e1], e2⟩

theorem keySuffix_head (q : String) (i : Bool) (a : Char)
    (h : (keySuffix q i).data.head? = some a) : a = '?' := by
  unfold keySuffix at h
  by_cases hc : (q != "" && i) = true
  · rw [if_pos hc] at h
    simp only [String.data_append] at h
    have hq : (['?'] ++ q.data).head? = some '?' := rfl
    rw [hq] at h
    exact (Option.some.inj h).symm
  · rw [if_neg hc] at h
    have he : ("" : String).data = [] := rfl
    rw [he] at h
    exact absurd h (by simp)

theorem path_suffix_head (path q : String) (i : Bool) (hp : pathWellFormed path) (a : Char)
    (h : (path.data ++ (keySuffix q i).data).head? = some a) : a = '/' ∨ a = '?' := by
  cases hd : path.data with
  | nil =>
    rw [hd, List.nil_append] at h
    exact Or.inr (keySuffix_head q i a h)
  | cons c rest =>
    rw [hd] at h
    have hc : c = a := by simpa using h
    rcases hp.1 with h0 | h0
    · rw [hd] at h0
      exact absurd h0 (by simp)
    · rw [hd] at h0
      have : c = '/' := by simpa using h0
      exact Or.inl (hc ▸ this)

/-- C2, amended. Equal keys force equal hosts, equal paths and equal effective
queries (the raw query when `addQuery` is true, nothing otherwise) for every
two inputs that are well formed (a host without slash and question mark, a path
that is empty or starts with a slash and holds no question mark), whatever
their lengths; and likewise for every two inputs, well formed or not, whose
hosts have the same length and whose paths have the same length. -/
theorem cacheKey_injective_up_to_effective_query (cfg1 cfg2 : Config)
    (host1 path1 query1 host2 path2 query2 : String) (hdr1 hdr2 : Header) (inc1 inc2 : Bool)
    (hdom : (hostWellFormed host1 ∧ pathWellFormed path1 ∧
        hostWellFormed host2 ∧ pathWellFormed path2) ∨
      (host1.length = host2.length ∧ path1.length = path2.length))
    (hkey : (cacheKey cfg1 (mkRequest host1 path1 query1 hdr1) inc1).1 =
      (cacheKey cfg2 (mkRequest host2 path2 query2 hdr2) inc2).1) :
    host1 = host2 ∧ path1 = path2 ∧
      effectiveQuery query1 inc1 = effectiveQuery query2 inc2 := by
  rw [cacheKey_eq_append, cacheKey_eq_append] at hkey
  simp only [mkRequest] at hkey
  have hd := congrArg String.data hkey
  simp only [String.data_append, List.append_assoc] at hd
  rcases hdom with ⟨hh1, hp1, hh2, hp2⟩ | ⟨hhost, hpath⟩
  · have hostOk : ∀ (host : String), hostWellFormed host →
        ∀ a ∈ host.data, a ≠ '/' ∧ a ≠ '?' := by
      intro host hw a ha
      exact ⟨fun e => hw.1 (e ▸ ha), fun e => hw.2 (e ▸ ha)⟩
    have restOk : ∀ (path q : String) (i : Bool), pathWellFormed path →
        ∀ a, (path.data ++ (keySuffix q i).data).head? = some a → ¬ (a ≠ '/' ∧ a ≠ '?') := by
      intro path q i hw a ha hn
      rcases path_suffix_head path q i hw a ha with e | e
      · exact hn.1 e
      · exact hn.2 e
    obtain ⟨e1, rest⟩ := split_unique (fun a => a ≠ '/' ∧ a ≠ '?') host1.data host2.data _ _
      (hostOk host1 hh1) (hostOk host2 hh2) (restOk path1 query1 inc1 hp1)
      (restOk path2 query2 inc2 hp2) hd
    obtain ⟨e2, e3⟩ := split_unique (fun a => a ≠ '?') path1.data path2.data _ _
      (fun a ha e => hp1.2 (e ▸ ha)) (fun a ha e => hp2.2 (e ▸ ha))
      (fun a ha hn => hn (keySuffix_head query1 inc1 a ha))
      (fun a ha hn => hn (keySuffix_head query2 inc2 a ha)) rest
    exact ⟨String.ext e1, String.ext e2, keySuffix_eq_effectiveQuery (String.ext e3)⟩
  · have hlen : host1.data.length = host2.data.length := hhost
    obtain ⟨e1, rest⟩ := List.append_inj hd hlen
    have hlen2 : path1.data.length = path2.data.length := hpath
    obtain ⟨e2, e3⟩ := List.append_inj rest hlen2
    exact ⟨String.ext e1, String.ext e2, keySuffix_eq_effectiveQuery (String.ext e3)⟩

theorem cacheKey_injective_up_to_effective_query_witness :
    "a.com" = "a.com" ∧ "/x" = "/x" ∧ effectiveQuery "" true = effectiveQuery "q=2" false :=
  cacheKey_injective_up_to_effective_query CreateConfig CreateConfig
    "a.com" "/x" "" "a.com" "/x" "q=2" [] [] true false
    (Or.inl ⟨⟨by decide, by decide⟩, ⟨by decide, by decide⟩, ⟨by decide, by decide⟩,
      ⟨by decide, by decide⟩⟩)
    (by decide)

theorem fullKey_eq (cfg : Config) (r : Request) : (cacheKey cfg r true).1 = fullKey r := by
  unfold cacheKey fullKey
  by_cases hq : r.URL.RawQuery = "" <;> simp [hq, String.append_assoc]

theorem strippedKey_eq (cfg : Config) (r : Request) :
    (cacheKey cfg r false).1 = strippedKey r := by
  simp [cacheKey, strippedKey]

theorem strippedKey_ne_fullKey (r : Request) (hq : r.URL.RawQuery ≠ "") :
    strippedKey r ≠ fullKey r := by
  intro h
  have hd := congrArg (fun s => s.data.length) h
  simp [strippedKey, fullKey, hq] at hd

theorem strippedKey_eq_fullKey (r : Request) (hq : r.URL.RawQuery = "") :
    strippedKey r = fullKey r := by
  simp [strippedKey, fullKey, hq]

/-! ## Cacheability -/

theorem startsWith_iff (s p : String) : startsWith s p = true ↔ ∃ rest, s = p ++ rest := by
  unfold startsWith
  rw [List.isPrefixOf_iff_prefix]
  constructor
  · rintro ⟨t, ht⟩
    exact ⟨⟨t⟩, String.ext (by simp [← ht])⟩
  · rintro ⟨rest, rfl⟩
    exact ⟨rest.data, by simp⟩

/-- C3. `cacheable` answers true exactly when the status is 200 and either the
response header map yields `"true"` for the configured marker header or the
request path starts with `/build/`; the four sample cases of the specification
come out as written, for every marker name and every library behaviour. -/
theorem cacheable_iff (lib : Lib) (cfg : Config) (r : Request) (wHeader : Header)
    (status : Int) :
    ((cacheable lib cfg r wHeader status).1 = true ↔
        status = 200 ∧ (Header.Get lib wHeader cfg.CacheableHeader = "true" ∨
          ∃ rest, r.URL.Path = "/build/" ++ rest))
      ∧ (cacheable lib cfg (mkRequest r.Host "/build/app.js" r.URL.RawQuery r.Header) [] 200).1
          = true
      ∧ (cacheable lib cfg (mkRequest r.Host "/other" r.URL.RawQuery r.Header) [] 200).1 = false
      ∧ (cacheable lib cfg (mkRequest r.Host "/other" r.URL.RawQuery r.Header)
          [(lib.canon cfg.CacheableHeader, ["true"])] 200).1 = true
      ∧ (cacheable lib cfg (mkRequest r.Host "/other" r.URL.RawQuery r.Header)
          [(lib.canon cfg.CacheableHeader, ["true"])] 404).1 = false := by
  refine ⟨?_, ?_, ?_, ?_, ?_⟩
  · simp [cacheable, startsWith_iff]
  · simp [cacheable, mkRequest, startsWith, Header.Get, Header.values]
  · simp [cacheable, mkRequest, startsWith, Header.Get, Header.values, List.isPrefixOf]
  · simp [cacheable, mkRequest, startsWith, Header.Get, Header.values, List.lookup]
  · simp [cacheable, mkRequest, startsWith, Header.Get, Header.values, List.lookup]

/-! ## Observations: how they split over a run -/

theorem observable_append (a b : List Effect) :
    observable (a ++ b) = observable a ++ observable b := by
  simp [observable]

theorem observable_debug (d : Bool) (m : String) :
    observable (if d then [Effect.log m] else []) = [] := by
  cases d <;> rfl

theorem observable_cacheKey (cfg : Config) (r : Request) (b : Bool) :
    observable (cacheKey cfg r b).2 = [] := by
  unfold cacheKey
  exact observable_debug _ _

theorem observable_cacheable (lib : Lib) (cfg : Config) (r : Request) (h : Header) (s : Int) :
    observable (cacheable lib cfg r h s).2 = [] := by
  unfold cacheable
  exact observable_debug _ _

theorem observable_clients (cs : List WriterCall) :
    observable (cs.map Effect.client) = cs.map Effect.client := by
  induction cs with
  | nil => rfl
  | cons c cs ih => simp_all [observable]

theorem storeReads_observable (t : List Effect) : storeReads (observable t) = storeReads t := by
  induction t with
  | nil => rfl
  | cons e t ih => cases e <;> simp_all [storeReads, observable, List.filter_cons]

theorem storeSets_observable (t : List Effect) : storeSets (observable t) = storeSets t := by
  induction t with
  | nil => rfl
  | cons e t ih => cases e <;> simp_all [storeSets, observable, List.filter_cons]

theorem clientCalls_observable (t : List Effect) :
    clientCalls (observable t) = clientCalls t := by
  induction t with
  | nil => rfl
  | cons e t ih => cases e <;> simp_all [clientCalls, observable, List.filter_cons]

theorem nextCalls_observable (t : List Effect) : nextCalls (observable t) = nextCalls t := by
  induction t with
  | nil => rfl
  | cons e t ih => cases e <;> simp_all [nextCalls, observable, List.filter_cons]

theorem storeReads_clients (cs : List WriterCall) : storeReads (cs.map Effect.client) = [] := by
  induction cs with
  | nil => rfl
  | cons c cs ih => simp_all [storeReads]

theorem storeSets_clients (cs : List WriterCall) : storeSets (cs.map Effect.client) = [] := by
  induction cs with
  | nil => rfl
  | cons c cs ih => simp_all [storeSets]

theorem clientCalls_clients (cs : List WriterCall) : clientCalls (cs.map Effect.client) = cs := by
  induction cs with
  | nil => rfl
  | cons c cs ih => simp_all [clientCalls]

theorem nextCalls_clients (cs : List WriterCall) : nextCalls (cs.map Effect.client) = 0 := by
  induction cs with
  | nil => rfl
  | cons c cs ih => simp_all [nextCalls]

theorem storeReads_append (a b : List Effect) :
    storeReads (a ++ b) = storeReads a ++ storeReads b := by
  simp [storeReads]

theorem storeSets_append (a b : List Effect) :
    storeSets (a ++ b) = storeSets a ++ storeSets b := by
  simp [storeSets]

theorem clientCalls_append (a b : List Effect) :
    clientCalls (a ++ b) = clientCalls a ++ clientCalls b := by
  simp [clientCalls]

theorem nextCalls_append (a b : List Effect) : nextCalls (a ++ b) = nextCalls a + nextCalls b := by
  simp [nextCalls]

/-! ## The capturing writer -/

theorem call_effects (rw : responseWriter) (c : WriterCall) :
    (rw.call c).2 = [Effect.client c] := by
  cases c <;> rfl

theorem runCalls_effects (cs : List WriterCall) (rw : responseWriter) :
    (runCalls cs rw).2 = cs.map Effect.client := by
  induction cs generalizing rw with
  | nil => rfl
  | cons c cs ih => simp [runCalls, ih, call_effects]

theorem serveNext_effects (next : Request → List WriterCall) (r : Request) :
    (serveNext next r).2 = Effect.next :: (next r).map Effect.client := by
  simp [serveNext, runCalls_effects]

theorem observable_serveNext (next : Request → List WriterCall) (r : Request) :
    observable (serveNext next r).2 = Effect.next :: (next r).map Effect.client := by
  rw [serveNext_effects]
  have h := observable_clients (next r)
  simp_all [observable]

/-! ## Bypass -/

theorem ServeHTTP_bypass (lib : Lib) (cfg : Config) (store : CacheSystem)
    (next : Request → List WriterCall) (w0 : Header) (r : Request)
    (hby : bypassingHeaders lib cfg r = true) :
    ServeHTTP lib cfg store next w0 r = Effect.next :: (next r).map Effect.client := by
  unfold ServeHTTP
  simp [hby, serveNext_effects]

/-- C4. Under every configuration and store, a request whose configured bypass
header reads `no-cache` makes `ServeHTTP` do exactly this: call the next
handler once and let each of its calls reach the client's writer, in order and
unchanged. No store read and no store write happens. -/
theorem bypass_passthrough (lib : Lib) (cfg : Config) (store : CacheSystem)
    (next : Request → List WriterCall) (w0 : Header) (r : Request)
    (hby : Header.Get lib r.Header cfg.BypassHeader = "no-cache") :
    ServeHTTP lib cfg store next w0 r = Effect.next :: (next r).map Effect.client
      ∧ nextCalls (ServeHTTP lib cfg store next w0 r) = 1
      ∧ clientCalls (ServeHTTP lib cfg store next w0 r) = next r
      ∧ storeReads (ServeHTTP lib cfg store next w0 r) = []
      ∧ storeSets (ServeHTTP lib cfg store next w0 r) = [] := by
  have h : ServeHTTP lib cfg store next w0 r = Effect.next :: (next r).map Effect.client :=
    ServeHTTP_bypass lib cfg store next w0 r (by simp [bypassingHeaders, hby])
  have e : Effect.next :: (next r).map Effect.client
      = [Effect.next] ++ (next r).map Effect.client := rfl
  refine ⟨h, ?_, ?_, ?_, ?_⟩
  · rw [h, e, nextCalls_append, nextCalls_clients]; rfl
  · rw [h, e, clientCalls_append, clientCalls_clients]; rfl
  · rw [h, e, storeReads_append, storeReads_clients]; rfl
  · rw [h, e, storeSets_append, storeSets_clients]; rfl

theorem bypass_passthrough_witness :
    ServeHTTP sampleLib emergencyConfig storeFull okHandler [] bypassRequest
        = Effect.next :: (okHandler bypassRequest).map Effect.client
      ∧ nextCalls (ServeHTTP sampleLib emergencyConfig storeFull okHandler [] bypassRequest) = 1
      ∧ clientCalls (ServeHTTP sampleLib emergencyConfig storeFull okHandler [] bypassRequest)
          = okHandler bypassRequest
      ∧ storeReads (ServeHTTP sampleLib emergencyConfig storeFull okHandler [] bypassRequest) = []
      ∧ storeSets (ServeHTTP sampleLib emergencyConfig storeFull okHandler [] bypassRequest) = [] :=
  bypass_passthrough sampleLib emergencyConfig storeFull okHandler [] bypassRequest (by decide)

/-! ## Lookups -/

theorem observable_replay (lib : Lib) (data : cacheData) :
    observable (replay lib data) = replay lib data := by
  unfold replay headerAdds
  rw [observable_append, observable_clients]
  rfl

theorem observable_sendCacheFile (lib : Lib) (cfg : Config) (data : cacheData) :
    observable (sendCacheFile lib cfg data) = replay lib data := by
  unfold sendCacheFile
  rw [List.append_assoc, observable_append, observable_debug]
  exact observable_replay lib data

theorem processCachedResponse_hit (lib : Lib) (cfg : Config)
    (got : Option Bytes × Option String) (data : cacheData) (h : Hit lib got data) :
    (processCachedResponse lib cfg got.1 got.2).1 = true ∧
      observable (processCachedResponse lib cfg got.1 got.2).2 = replay lib data := by
  obtain ⟨he, bs, hb, hu, hd, hs⟩ := h
  subst hd
  simp [processCachedResponse, he, hb, hu, hs, observable_sendCacheFile]

theorem processCachedResponse_miss (lib : Lib) (cfg : Config)
    (got : Option Bytes × Option String) (h : Miss lib got) :
    (processCachedResponse lib cfg got.1 got.2).1 = false ∧
      observable (processCachedResponse lib cfg got.1 got.2).2 = [] := by
  obtain ⟨b, err⟩ := got
  unfold processCachedResponse
  cases err with
  | some e => exact ⟨rfl, rfl⟩
  | none =>
    cases b with
    | none => exact ⟨rfl, rfl⟩
    | some bs =>
      rcases h with h | h | ⟨bs1, hb, h⟩
      · exact absurd rfl h
      · exact absurd h (by simp)
      · simp only [Option.some.injEq] at hb
        subst hb
        have hn : ¬ ((lib.jsonUnmarshal bs).2 = none ∧ (lib.jsonUnmarshal bs).1.Status = 200) := by
          rintro ⟨h1, h2⟩
          rcases h with h | h
          · exact h h1
          · exact h h2
        simp [hn, observable]

theorem ServeHTTP_emergency_hit (lib : Lib) (cfg : Config) (store : CacheSystem)
    (next : Request → List WriterCall) (w0 : Header) (r : Request) (data : cacheData)
    (hby : bypassingHeaders lib cfg r = false) (hem : cfg.EmergencyMode = true)
    (hhit : Hit lib (store.Get (fullKey r)) data) :
    observable (ServeHTTP lib cfg store next w0 r) =
      Effect.storeGet (fullKey r) :: replay lib data := by
  obtain ⟨h1, h2⟩ := processCachedResponse_hit lib cfg _ data hhit
  unfold ServeHTTP
  simp only [hby, hem, fullKey_eq, h1, if_true, Bool.false_eq_true, if_false,
    observable_append, observable_cacheKey, observable_debug, h2]
  rfl

theorem ServeHTTP_emergency_second_hit (lib : Lib) (cfg : Config) (store : CacheSystem)
    (next : Request → List WriterCall) (w0 : Header) (r : Request) (data : cacheData)
    (hby : bypassingHeaders lib cfg r = false) (hem : cfg.EmergencyMode = true)
    (hq : r.URL.RawQuery ≠ "")
    (hmiss : Miss lib (store.Get (fullKey r)))
    (hhit : Hit lib (store.Get (strippedKey r)) data) :
    observable (ServeHTTP lib cfg store next w0 r) =
      Effect.storeGet (fullKey r) :: Effect.storeGet (strippedKey r) :: replay lib data := by
  obtain ⟨h1, h2⟩ := processCachedResponse_hit lib cfg _ data hhit
  obtain ⟨m1, m2⟩ := processCachedResponse_miss lib cfg _ hmiss
  have hne : (strippedKey r != fullKey r) = true := by
    simpa using strippedKey_ne_fullKey r hq
  unfold ServeHTTP
  simp only [hby, hem, fullKey_eq, strippedKey_eq, h1, m1, hne, if_true, Bool.false_eq_true,
    if_false, observable_append, observable_cacheKey, observable_debug, h2, m2]
  rfl

theorem ServeHTTP_emergency_miss (lib : Lib) (cfg : Config) (store : CacheSystem)
    (next : Request → List WriterCall) (w0 : Header) (r : Request)
    (hby : bypassingHeaders lib cfg r = false) (hem : cfg.EmergencyMode = true)
    (hmiss : Miss lib (store.Get (fullKey r)))
    (hmiss2 : r.URL.RawQuery ≠ "" → Miss lib (store.Get (strippedKey r))) :
    observable (ServeHTTP lib cfg store next w0 r) =
      (if r.URL.RawQuery = "" then [Effect.storeGet (fullKey r)]
        else [Effect.storeGet (fullKey r), Effect.storeGet (strippedKey r)]) ++
      Effect.next :: (next r).map Effect.client := by
  obtain ⟨m1, m2⟩ := processCachedResponse_miss lib cfg _ hmiss
  by_cases hq : r.URL.RawQuery = ""
  · have hne : (strippedKey r != fullKey r) = false := by
      simpa using strippedKey_eq_fullKey r hq
    unfold ServeHTTP
    simp only [hby, hem, fullKey_eq, strippedKey_eq, m1, hne, hq, if_true, Bool.false_eq_true,
      if_false, observable_append, observable_cacheKey, observable_debug, m2,
      observable_serveNext]
    rfl
  · obtain ⟨n1, n2⟩ := processCachedResponse_miss lib cfg _ (hmiss2 hq)
    have hne : (strippedKey r != fullKey r) = true := by
      simpa using strippedKey_ne_fullKey r hq
    unfold ServeHTTP
    simp only [hby, hem, fullKey_eq, strippedKey_eq, m1, n1, hne, hq, if_true,
      Bool.false_eq_true, if_false, observable_append, observable_cacheKey, observable_debug,
      m2, n2, observable_serveNext]
    rfl

/-! ## Header values of a replay -/

theorem addedValues_append (k : String) (a b : List WriterCall) :
    addedValues k (a ++ b) = addedValues k a ++ addedValues k b := by
  simp [addedValues]

theorem addedValues_map_headerAdd (k k1 : String) (vs : List String) :
    addedValues k (vs.map fun v => WriterCall.headerAdd k1 v) = if k1 = k then vs else [] := by
  induction vs with
  | nil => simp [addedValues]
  | cons v vs ih =>
    by_cases hk : k1 = k
    · simp_all [addedValues]
    · simp_all [addedValues]

theorem addedValues_headerAddCalls (k : String) (entries : Header) :
    addedValues k (headerAddCalls entries) =
      (entries.filter fun e => decide (e.1 = k)).flatMap Prod.snd := by
  induction entries with
  | nil => rfl
  | cons e t ih =>
    have hc : headerAddCalls (e :: t) =
        (e.2.map fun v => WriterCall.headerAdd e.1 v) ++ headerAddCalls t := by
      simp [headerAddCalls]
    have ih1 : addedValues k (headerAddCalls t) =
        (t.filter fun e => decide (e.1 = k)).flatMap Prod.snd := ih
    rw [hc, addedValues_append, addedValues_map_headerAdd, ih1]
    by_cases hk : e.1 = k
    · simp [hk, List.filter_cons]
    · simp [hk, List.filter_cons]

theorem filter_key_eq_nil (h : Header) (k : String) (hk : k ∉ h.map Prod.fst) :
    (h.filter fun e => decide (e.1 = k)) = [] := by
  rw [List.filter_eq_nil_iff]
  intro e he hek
  exact hk (List.mem_map.mpr ⟨e, he, by simpa using hek⟩)

theorem values_eq_filter (h : Header) (k : String) (hn : (h.map Prod.fst).Nodup) :
    h.values k = (h.filter fun e => decide (e.1 = k)).flatMap Prod.snd := by
  induction h with
  | nil => rfl
  | cons e t ih =>
    obtain ⟨k1, vs⟩ := e
    simp only [List.map_cons, List.nodup_cons] at hn
    by_cases hk : k1 = k
    · subst hk
      have hnil := filter_key_eq_nil t k1 hn.1
      simp [Header.values, List.lookup, List.filter_cons, hnil]
    · have hk2 : (k == k1) = false := by
        simpa using fun h => hk h.symm
      have ih1 := ih hn.2
      simp only [Header.values] at ih1
      simp [Header.values, List.lookup, List.filter_cons, hk, hk2, ih1]

theorem filter_key_length_le_one (h : Header) (k : String) (hn : (h.map Prod.fst).Nodup) :
    (h.filter fun e => decide (e.1 = k)).length ≤ 1 := by
  induction h with
  | nil => simp
  | cons e t ih =>
    simp only [List.map_cons, List.nodup_cons] at hn
    by_cases hk : e.1 = k
    · have hnil := filter_key_eq_nil t k (hk ▸ hn.1)
      simp [List.filter_cons, hk, hnil]
    · simpa [List.filter_cons, hk] using ih hn.2

theorem filter_key_perm (l h : Header) (k : String) (hp : l.Perm h)
    (hn : (h.map Prod.fst).Nodup) :
    (l.filter fun e => decide (e.1 = k)) = (h.filter fun e => decide (e.1 = k)) := by
  have hpf := hp.filter (fun e => decide (e.1 = k))
  have hlen := filter_key_length_le_one h k hn
  match hf : (h.filter fun e => decide (e.1 = k)) with
  | [] =>
    rw [hf] at hpf
    exact hpf.eq_nil.trans hf.symm
  | [x] =>
    rw [hf] at hpf
    exact (List.perm_singleton.mp hpf).trans hf.symm
  | x :: y :: t =>
    rw [hf] at hlen
    simp at hlen

theorem addedValues_replay (lib : Lib) (data : cacheData) (k : String)
    (hn : (data.Headers.map Prod.fst).Nodup)
    (hp : (lib.rangeOrder data.Headers).Perm data.Headers) :
    addedValues k (headerAddCalls (lib.rangeOrder data.Headers) ++
      [WriterCall.WriteHeader data.Status, WriterCall.Write data.Body]) =
      data.Headers.values k := by
  rw [addedValues_append, addedValues_headerAddCalls, filter_key_perm _ _ k hp hn,
    ← values_eq_filter _ k hn]
  simp [addedValues]

theorem clientCalls_replay (lib : Lib) (data : cacheData) :
    clientCalls (replay lib data) = headerAddCalls (lib.rangeOrder data.Headers) ++
      [WriterCall.WriteHeader data.Status, WriterCall.Write data.Body] := by
  unfold replay headerAdds
  rw [clientCalls_append, clientCalls_clients]
  rfl

theorem storeReads_replay (lib : Lib) (data : cacheData) : storeReads (replay lib data) = [] := by
  unfold replay headerAdds
  rw [storeReads_append, storeReads_clients]
  rfl

theorem storeSets_replay (lib : Lib) (data : cacheData) : storeSets (replay lib data) = [] := by
  unfold replay headerAdds
  rw [storeSets_append, storeSets_clients]
  rfl

theorem nextCalls_replay (lib : Lib) (data : cacheData) : nextCalls (replay lib data) = 0 := by
  unfold replay headerAdds
  rw [nextCalls_append, nextCalls_clients]
  rfl

/-! ## Normal mode -/

theorem runCalls_status (cs : List WriterCall) (rw : responseWriter) :
    (runCalls cs rw).1.status =
      ((cs.filterMap fun c => match c with
        | .WriteHeader s => some s
        | _ => none).getLast?).getD rw.status := by
  induction cs generalizing rw with
  | nil => rfl
  | cons c cs ih =>
    simp only [runCalls]
    rw [ih]
    cases c <;> simp [responseWriter.call, List.filterMap_cons, List.getLast?_cons]

theorem runCalls_body (cs : List WriterCall) (rw : responseWriter) :
    (runCalls cs rw).1.body = rw.body ++ (writtenChunks cs).flatten := by
  induction cs generalizing rw with
  | nil => simp [runCalls, writtenChunks]
  | cons c cs ih =>
    simp only [runCalls]
    rw [ih]
    cases c <;> simp [responseWriter.call, writtenChunks, List.filterMap_cons]

theorem serveNext_status (next : Request → List WriterCall) (r : Request) :
    (serveNext next r).1.status = lastStatus (next r) := by
  simp [serveNext, runCalls_status, lastStatus]

theorem serveNext_body (next : Request → List WriterCall) (r : Request) :
    (serveNext next r).1.body = (writtenChunks (next r)).flatten := by
  simp [serveNext, runCalls_body]

/-- The record `ServeHTTP` builds for a cacheable response. -/
theorem ServeHTTP_normal (lib : Lib) (cfg : Config) (store : CacheSystem)
    (next : Request → List WriterCall) (w0 : Header) (r : Request)
    (hby : bypassingHeaders lib cfg r = false) (hem : cfg.EmergencyMode = false) :
    observable (ServeHTTP lib cfg store next w0 r) =
      Effect.next :: (next r).map Effect.client ++
        (if (cacheable lib cfg r (headerAfter lib w0 (next r)) (lastStatus (next r))).1 then
          [Effect.storeSet (fullKey r)
            (lib.jsonMarshal
              { Status := lastStatus (next r)
                Headers := headerAfter lib w0 (next r)
                Body := (writtenChunks (next r)).flatten
                Created := lib.now }).1]
        else []) := by
  unfold ServeHTTP
  simp only [hby, hem, fullKey_eq, serveNext_status, serveNext_body, Bool.false_eq_true,
    if_false]
  by_cases hc : (cacheable lib cfg r (headerAfter lib w0 (next r)) (lastStatus (next r))).1 = true
  · simp only [hc, Bool.not_true, Bool.false_eq_true, if_false, if_true, observable_append,
      observable_cacheKey, observable_debug, observable_cacheable, observable_serveNext]
    cases hm : (lib.jsonMarshal
        { Status := lastStatus (next r)
          Headers := headerAfter lib w0 (next r)
          Body := (writtenChunks (next r)).flatten
          Created := lib.now }).2 <;> simp [observable]
  · simp only [hc, Bool.not_false, if_true, Bool.false_eq_true, if_false, observable_append,
      observable_cacheKey, observable_debug, observable_cacheable, observable_serveNext]
    simp [observable]

theorem bypassingHeaders_eq_false (lib : Lib) (cfg : Config) (r : Request)
    (h : Header.Get lib r.Header cfg.BypassHeader ≠ "no-cache") :
    bypassingHeaders lib cfg r = false := by
  simp [bypassingHeaders, h]

theorem storeSets_of_observable (t u : List Effect) (h : observable t = u) :
    storeSets t = storeSets u := by
  rw [← h, storeSets_observable]

theorem storeReads_of_observable (t u : List Effect) (h : observable t = u) :
    storeReads t = storeReads u := by
  rw [← h, storeReads_observable]

theorem clientCalls_of_observable (t u : List Effect) (h : observable t = u) :
    clientCalls t = clientCalls u := by
  rw [← h, clientCalls_observable]

theorem nextCalls_of_observable (t u : List Effect) (h : observable t = u) :
    nextCalls t = nextCalls u := by
  rw [← h, nextCalls_observable]

theorem storeReads_cons_get (k : String) (t : List Effect) :
    storeReads (Effect.storeGet k :: t) = k :: storeReads t := rfl

theorem storeSets_cons_get (k : String) (t : List Effect) :
    storeSets (Effect.storeGet k :: t) = storeSets t := rfl

theorem clientCalls_cons_get (k : String) (t : List Effect) :
    clientCalls (Effect.storeGet k :: t) = clientCalls t := rfl

theorem nextCalls_cons_get (k : String) (t : List Effect) :
    nextCalls (Effect.storeGet k :: t) = nextCalls t := by
  simp [nextCalls]

theorem storeReads_upstream (cs : List WriterCall) :
    storeReads (Effect.next :: cs.map Effect.client) = [] := by
  have h := storeReads_clients cs
  simp only [storeReads] at h ⊢
  simp [h]

theorem storeSets_upstream (cs : List WriterCall) :
    storeSets (Effect.next :: cs.map Effect.client) = [] := by
  have h := storeSets_clients cs
  simp only [storeSets] at h ⊢
  simp [h]

theorem clientCalls_upstream (cs : List WriterCall) :
    clientCalls (Effect.next :: cs.map Effect.client) = cs := by
  have h := clientCalls_clients cs
  simpa [clientCalls] using h

theorem nextCalls_upstream (cs : List WriterCall) :
    nextCalls (Effect.next :: cs.map Effect.client) = 1 := by
  have h := nextCalls_clients cs
  simp only [nextCalls] at h ⊢
  simp [h]

/-! ## Emergency mode -/

/-- C5. In emergency mode, for a request that does not bypass, when the store
answers the read on the full key without error with bytes that deserialise to a
record of status 200, `ServeHTTP` reads the store once, on the full key, and
then replays the record: the stored header values, the stored status, the
stored body. The next handler is never called and nothing is written to the
store. When the stored headers form a map and `range` visits each entry once,
the values added under each header name are the stored values of that name in
stored order. -/
theorem emergency_hit_replays (lib : Lib) (cfg : Config) (store : CacheSystem)
    (next : Request → List WriterCall) (w0 : Header) (r : Request) (data : cacheData)
    (hby : Header.Get lib r.Header cfg.BypassHeader ≠ "no-cache")
    (hem : cfg.EmergencyMode = true)
    (hhit : Hit lib (store.Get (fullKey r)) data) :
    observable (ServeHTTP lib cfg store next w0 r) =
        Effect.storeGet (fullKey r) :: replay lib data
      ∧ clientCalls (ServeHTTP lib cfg store next w0 r) =
          headerAddCalls (lib.rangeOrder data.Headers) ++
            [WriterCall.WriteHeader data.Status, WriterCall.Write data.Body]
      ∧ ((data.Headers.map Prod.fst).Nodup →
          (lib.rangeOrder data.Headers).Perm data.Headers →
          ∀ k, addedValues k (clientCalls (ServeHTTP lib cfg store next w0 r)) =
            data.Headers.values k)
      ∧ nextCalls (ServeHTTP lib cfg store next w0 r) = 0
      ∧ storeReads (ServeHTTP lib cfg store next w0 r) = [fullKey r]
      ∧ storeSets (ServeHTTP lib cfg store next w0 r) = [] := by
  have hobs := ServeHTTP_emergency_hit lib cfg store next w0 r data
    (bypassingHeaders_eq_false lib cfg r hby) hem hhit
  have hc : clientCalls (ServeHTTP lib cfg store next w0 r) =
      headerAddCalls (lib.rangeOrder data.Headers) ++
        [WriterCall.WriteHeader data.Status, WriterCall.Write data.Body] := by
    rw [clientCalls_of_observable _ _ hobs, clientCalls_cons_get, clientCalls_replay]
  refine ⟨hobs, hc, ?_, ?_, ?_, ?_⟩
  · intro hn hp k
    rw [hc]
    exact addedValues_replay lib data k hn hp
  · rw [nextCalls_of_observable _ _ hobs, nextCalls_cons_get, nextCalls_replay]
  · rw [storeReads_of_observable _ _ hobs, storeReads_cons_get, storeReads_replay]
  · rw [storeSets_of_observable _ _ hobs, storeSets_cons_get, storeSets_replay]

theorem emergency_hit_replays_witness :
    clientCalls (ServeHTTP sampleLib emergencyConfig storeFull okHandler [] sampleRequest) =
        [WriterCall.headerAdd "Set-Cookie" "a=1", WriterCall.headerAdd "Set-Cookie" "b=2",
          WriterCall.headerAdd "Content-Type" "text/html", WriterCall.WriteHeader 200,
          WriterCall.Write [60, 104, 116, 109, 108, 62]]
      ∧ addedValues "Set-Cookie"
          (clientCalls (ServeHTTP sampleLib emergencyConfig storeFull okHandler [] sampleRequest))
          = ["a=1", "b=2"]
      ∧ nextCalls (ServeHTTP sampleLib emergencyConfig storeFull okHandler [] sampleRequest) = 0
      ∧ storeReads (ServeHTTP sampleLib emergencyConfig storeFull okHandler [] sampleRequest)
          = ["a.com/x?y=1"]
      ∧ storeSets (ServeHTTP sampleLib emergencyConfig storeFull okHandler [] sampleRequest)
          = [] :=
  have h := emergency_hit_replays sampleLib emergencyConfig storeFull okHandler [] sampleRequest
    sampleData (by decide) rfl ⟨rfl, [1], rfl, rfl, rfl, rfl⟩
  ⟨h.2.1, h.2.2.1 (by decide) (List.reverse_perm _) "Set-Cookie", h.2.2.2⟩

/-- C6. In emergency mode, for a request that does not bypass and has a
non-empty raw query, when the read on the full key is a miss and the store
holds a valid record of status 200 at the stripped key, `ServeHTTP` reads the
store exactly twice, on the full key and then on the stripped key, replays the
record found at the stripped key and never calls the next handler. -/
theorem emergency_fallback_replays (lib : Lib) (cfg : Config) (store : CacheSystem)
    (next : Request → List WriterCall) (w0 : Header) (r : Request) (data : cacheData)
    (hby : Header.Get lib r.Header cfg.BypassHeader ≠ "no-cache")
    (hem : cfg.EmergencyMode = true)
    (hq : r.URL.RawQuery ≠ "")
    (hmiss : Miss lib (store.Get (fullKey r)))
    (hhit : Hit lib (store.Get (strippedKey r)) data) :
    observable (ServeHTTP lib cfg store next w0 r) =
        Effect.storeGet (fullKey r) :: Effect.storeGet (strippedKey r) :: replay lib data
      ∧ storeReads (ServeHTTP lib cfg store next w0 r) = [fullKey r, strippedKey r]
      ∧ clientCalls (ServeHTTP lib cfg store next w0 r) =
          headerAddCalls (lib.rangeOrder data.Headers) ++
            [WriterCall.WriteHeader data.Status, WriterCall.Write data.Body]
      ∧ nextCalls (ServeHTTP lib cfg store next w0 r) = 0
      ∧ storeSets (ServeHTTP lib cfg store next w0 r) = [] := by
  have hobs := ServeHTTP_emergency_second_hit lib cfg store next w0 r data
    (bypassingHeaders_eq_false lib cfg r hby) hem hq hmiss hhit
  refine ⟨hobs, ?_, ?_, ?_, ?_⟩
  · rw [storeReads_of_observable _ _ hobs, storeReads_cons_get, storeReads_cons_get,
      storeReads_replay]
  · rw [clientCalls_of_observable _ _ hobs, clientCalls_cons_get, clientCalls_cons_get,
      clientCalls_replay]
  · rw [nextCalls_of_observable _ _ hobs, nextCalls_cons_get, nextCalls_cons_get,
      nextCalls_replay]
  · rw [storeSets_of_observable _ _ hobs, storeSets_cons_get, storeSets_cons_get,
      storeSets_replay]

theorem emergency_fallback_replays_witness :
    storeReads (ServeHTTP sampleLib emergencyConfig storeStripped okHandler [] sampleRequest)
        = ["a.com/x?y=1", "a.com/x"]
      ∧ clientCalls (ServeHTTP sampleLib emergencyConfig storeStripped okHandler []
          sampleRequest) =
        [WriterCall.headerAdd "Set-Cookie" "a=1", WriterCall.headerAdd "Set-Cookie" "b=2",
          WriterCall.headerAdd "Content-Type" "text/html", WriterCall.WriteHeader 200,
          WriterCall.Write [60, 104, 116, 109, 108, 62]]
      ∧ nextCalls (ServeHTTP sampleLib emergencyConfig storeStripped okHandler []
          sampleRequest) = 0
      ∧ storeSets (ServeHTTP sampleLib emergencyConfig storeStripped okHandler []
          sampleRequest) = [] :=
  (emergency_fallback_replays sampleLib emergencyConfig storeStripped okHandler [] sampleRequest
    sampleData (by decide) rfl (by decide) (Or.inr (Or.inl rfl)) ⟨rfl, [1], rfl, rfl, rfl, rfl⟩).2

/-- C9. Every failed lookup is a miss: `processCachedResponse` answers false
and writes nothing to the client when the store read returned an error, no
bytes, bytes that fail to deserialise, or a record whose status is not 200.
And in emergency mode, for a request that does not bypass and whose every
attempted lookup is such a miss, `ServeHTTP` reads the full key only when the
raw query is empty and the full key then the stripped key otherwise, then calls
the next handler once, and the client receives the calls of the next handler
and nothing else. -/
theorem miss_degrades_to_upstream (lib : Lib) (cfg : Config) (store : CacheSystem)
    (next : Request → List WriterCall) (w0 : Header) (r : Request) :
    (∀ (b : Option Bytes) (err : Option String), Miss lib (b, err) →
        (processCachedResponse lib cfg b err).1 = false ∧
          clientCalls (processCachedResponse lib cfg b err).2 = [] ∧
          observable (processCachedResponse lib cfg b err).2 = [])
      ∧ (Header.Get lib r.Header cfg.BypassHeader ≠ "no-cache" →
          cfg.EmergencyMode = true →
          Miss lib (store.Get (fullKey r)) →
          (r.URL.RawQuery ≠ "" → Miss lib (store.Get (strippedKey r))) →
          observable (ServeHTTP lib cfg store next w0 r) =
              (if r.URL.RawQuery = "" then [Effect.storeGet (fullKey r)]
                else [Effect.storeGet (fullKey r), Effect.storeGet (strippedKey r)]) ++
              Effect.next :: (next r).map Effect.client
            ∧ storeReads (ServeHTTP lib cfg store next w0 r) =
              (if r.URL.RawQuery = "" then [fullKey r] else [fullKey r, strippedKey r])
            ∧ nextCalls (ServeHTTP lib cfg store next w0 r) = 1
            ∧ clientCalls (ServeHTTP lib cfg store next w0 r) = next r
            ∧ storeSets (ServeHTTP lib cfg store next w0 r) = []) := by
  constructor
  · intro b err hm
    obtain ⟨h1, h2⟩ := processCachedResponse_miss lib cfg (b, err) hm
    refine ⟨h1, ?_, h2⟩
    rw [clientCalls_of_observable _ _ h2]
    rfl
  · intro hby hem hm1 hm2
    have hobs := ServeHTTP_emergency_miss lib cfg store next w0 r
      (bypassingHeaders_eq_false lib cfg r hby) hem hm1 hm2
    refine ⟨hobs, ?_, ?_, ?_, ?_⟩
    · rw [storeReads_of_observable _ _ hobs, storeReads_append, storeReads_upstream]
      by_cases hq : r.URL.RawQuery = "" <;> simp [hq, storeReads]
    · rw [nextCalls_of_observable _ _ hobs, nextCalls_append, nextCalls_upstream]
      by_cases hq : r.URL.RawQuery = "" <;> simp [hq, nextCalls]
    · rw [clientCalls_of_observable _ _ hobs, clientCalls_append, clientCalls_upstream]
      by_cases hq : r.URL.RawQuery = "" <;> simp [hq, clientCalls]
    · rw [storeSets_of_observable _ _ hobs, storeSets_append, storeSets_upstream]
      by_cases hq : r.URL.RawQuery = "" <;> simp [hq, storeSets]

theorem miss_degrades_to_upstream_witness :
    ((processCachedResponse sampleLib emergencyConfig (some [2]) none).1 = false ∧
        clientCalls (processCachedResponse sampleLib emergencyConfig (some [2]) none).2 = [] ∧
        observable (processCachedResponse sampleLib emergencyConfig (some [2]) none).2 = [])
      ∧ storeReads (ServeHTTP sampleLib emergencyConfig storeDown okHandler [] sampleRequest)
          = ["a.com/x?y=1", "a.com/x"]
      ∧ nextCalls (ServeHTTP sampleLib emergencyConfig storeDown okHandler [] sampleRequest) = 1
      ∧ clientCalls (ServeHTTP sampleLib emergencyConfig storeDown okHandler [] sampleRequest)
          = okHandler sampleRequest
      ∧ storeSets (ServeHTTP sampleLib emergencyConfig storeDown okHandler [] sampleRequest)
          = [] :=
  have h := miss_degrades_to_upstream sampleLib emergencyConfig storeDown okHandler []
    sampleRequest
  ⟨h.1 (some [2]) none (Or.inr (Or.inr ⟨[2], rfl, Or.inr (by decide)⟩)),
    (h.2 (by decide) rfl (Or.inl (by decide)) (fun _ => Or.inl (by decide))).2⟩

/-! ## Store writes -/

theorem storeSets_debug (d : Bool) (m : String) :
    storeSets (if d then [Effect.log m] else []) = [] := by
  cases d <;> rfl

theorem storeSets_cons_log (m : String) (t : List Effect) :
    storeSets (Effect.log m :: t) = storeSets t := rfl

theorem storeSets_cacheKey (cfg : Config) (r : Request) (b : Bool) :
    storeSets (cacheKey cfg r b).2 = [] := by
  rw [← storeSets_observable, observable_cacheKey]
  rfl

theorem storeSets_serveNext (next : Request → List WriterCall) (r : Request) :
    storeSets (serveNext next r).2 = [] := by
  rw [serveNext_effects, storeSets_upstream]

theorem storeSets_processCachedResponse (lib : Lib) (cfg : Config) (b : Option Bytes)
    (err : Option String) : storeSets (processCachedResponse lib cfg b err).2 = [] := by
  unfold processCachedResponse
  cases err with
  | some e => rfl
  | none =>
    cases b with
    | none => rfl
    | some bs =>
      by_cases h : (lib.jsonUnmarshal bs).2 = none ∧ (lib.jsonUnmarshal bs).1.Status = 200
      · simp only [h, and_self, if_true]
        rw [← storeSets_observable, observable_sendCacheFile, storeSets_replay]
      · simp only [h, if_false]
        rfl

theorem storeSets_emergency (lib : Lib) (cfg : Config) (store : CacheSystem)
    (next : Request → List WriterCall) (w0 : Header) (r : Request)
    (hem : cfg.EmergencyMode = true) : storeSets (ServeHTTP lib cfg store next w0 r) = [] := by
  by_cases hby : bypassingHeaders lib cfg r = true
  · rw [ServeHTTP_bypass lib cfg store next w0 r hby, storeSets_upstream]
  · unfold ServeHTTP
    simp only [hby, hem, if_true, Bool.false_eq_true, if_false]
    split_ifs <;>
      simp [storeSets_append, storeSets_debug, storeSets_cacheKey, storeSets_serveNext,
        storeSets_processCachedResponse, storeSets_cons_get, storeSets_cons_log]

theorem mem_storeSets (t : List Effect) (k : String) (v : Option Bytes)
    (h : Effect.storeSet k v ∈ t) : (k, v) ∈ storeSets t := by
  unfold storeSets
  rw [List.mem_filterMap]
  exact ⟨Effect.storeSet k v, h, rfl⟩

theorem cacheable_status (lib : Lib) (cfg : Config) (r : Request) (h : Header) (s : Int)
    (hc : (cacheable lib cfg r h s).1 = true) : s = 200 := by
  simp only [cacheable, Bool.and_eq_true, beq_iff_eq] at hc
  exact hc.1

/-- C7, as stated, fails. A handler that sets the marker header and writes the
body `ok` without calling `WriteHeader` answers the client with status 200, in
normal mode and on a request that does not bypass; the capturing writer still
holds status 0, so the calls reach the client and no store write is
dispatched. -/
theorem implicit_ok_not_stored :
    CreateConfig.EmergencyMode = false
      ∧ Header.Get sampleLib sampleRequest.Header CreateConfig.BypassHeader ≠ "no-cache"
      ∧ responseStatus (writeOnlyHandler sampleRequest) = 200
      ∧ Header.Get sampleLib (headerAfter sampleLib [] (writeOnlyHandler sampleRequest))
          CreateConfig.CacheableHeader = "true"
      ∧ lastStatus (writeOnlyHandler sampleRequest) = 0
      ∧ clientCalls (ServeHTTP sampleLib CreateConfig storeDown writeOnlyHandler []
          sampleRequest) = writeOnlyHandler sampleRequest
      ∧ storeSets (ServeHTTP sampleLib CreateConfig storeDown writeOnlyHandler []
          sampleRequest) = [] := by
  decide

/-- C7, amended. In normal mode, for a request that does not bypass, when the
next handler called `WriteHeader` and the status it wrote last is 200 and the
response header map yields `"true"` for the marker header, `ServeHTTP` reads
nothing from the store, lets the calls of the next handler reach the client
unchanged, and then dispatches exactly one store write: on the full key, with
the serialisation of the record of status 200, the response header map and the
body made of the written chunks in call order. -/
theorem normal_mode_stores (lib : Lib) (cfg : Config) (store : CacheSystem)
    (next : Request → List WriterCall) (w0 : Header) (r : Request)
    (hby : Header.Get lib r.Header cfg.BypassHeader ≠ "no-cache")
    (hem : cfg.EmergencyMode = false)
    (hst : lastStatus (next r) = 200)
    (hmk : Header.Get lib (headerAfter lib w0 (next r)) cfg.CacheableHeader = "true") :
    observable (ServeHTTP lib cfg store next w0 r) =
        Effect.next :: (next r).map Effect.client ++
          [Effect.storeSet (fullKey r)
            (lib.jsonMarshal
              { Status := 200
                Headers := headerAfter lib w0 (next r)
                Body := (writtenChunks (next r)).flatten
                Created := lib.now }).1]
      ∧ storeReads (ServeHTTP lib cfg store next w0 r) = []
      ∧ clientCalls (ServeHTTP lib cfg store next w0 r) = next r
      ∧ nextCalls (ServeHTTP lib cfg store next w0 r) = 1
      ∧ storeSets (ServeHTTP lib cfg store next w0 r) =
          [(fullKey r,
            (lib.jsonMarshal
              { Status := 200
                Headers := headerAfter lib w0 (next r)
                Body := (writtenChunks (next r)).flatten
                Created := lib.now }).1)] := by
  have hc : (cacheable lib cfg r (headerAfter lib w0 (next r)) (lastStatus (next r))).1 = true := by
    simp [cacheable, hst, hmk]
  have hobs := ServeHTTP_normal lib cfg store next w0 r
    (bypassingHeaders_eq_false lib cfg r hby) hem
  rw [hc, if_pos rfl, hst] at hobs
  have e : ∀ x : List Effect, Effect.next :: (next r).map Effect.client ++ x =
      (Effect.next :: (next r).map Effect.client) ++ x := fun _ => rfl
  refine ⟨hobs, ?_, ?_, ?_, ?_⟩
  · rw [storeReads_of_observable _ _ hobs, e, storeReads_append, storeReads_upstream]
    rfl
  · rw [clientCalls_of_observable _ _ hobs, e, clientCalls_append, clientCalls_upstream]
    simp [clientCalls]
  · rw [nextCalls_of_observable _ _ hobs, e, nextCalls_append, nextCalls_upstream]
    simp [nextCalls]
  · rw [storeSets_of_observable _ _ hobs, e, storeSets_append, storeSets_upstream]
    rfl

theorem normal_mode_stores_witness :
    observable (ServeHTTP sampleLib CreateConfig storeDown okHandler [] sampleRequest) =
        [Effect.next,
          Effect.client (WriterCall.headerSet "X-Emergency-Cacheable" "true"),
          Effect.client (WriterCall.WriteHeader 200),
          Effect.client (WriterCall.Write [111, 107]),
          Effect.storeSet "a.com/x?y=1"
            (sampleLib.jsonMarshal
              { Status := 200
                Headers := [("X-Emergency-Cacheable", ["true"])]
                Body := [111, 107]
                Created := 1000 }).1]
      ∧ storeReads (ServeHTTP sampleLib CreateConfig storeDown okHandler [] sampleRequest) = [] :=
  have h := normal_mode_stores sampleLib CreateConfig storeDown okHandler [] sampleRequest
    (by decide) rfl (by decide) (by decide)
  ⟨h.1, h.2.1⟩

/-- C8. A store write is dispatched only on the cacheable normal-mode path:
whenever `ServeHTTP` dispatches `Set key val`, emergency mode is off, the
request does not bypass, `cacheable` holds for the captured response, the key
is the full key and `val` is the serialisation of a record of status 200.
Hence no run in emergency mode writes to the store, no response that is not
cacheable is written, and there is at most one write per request. -/
theorem store_write_only_when_cacheable (lib : Lib) (cfg : Config) (store : CacheSystem)
    (next : Request → List WriterCall) (w0 : Header) (r : Request) :
    (∀ (k : String) (v : Option Bytes),
        Effect.storeSet k v ∈ ServeHTTP lib cfg store next w0 r →
        cfg.EmergencyMode = false
          ∧ Header.Get lib r.Header cfg.BypassHeader ≠ "no-cache"
          ∧ (cacheable lib cfg r (headerAfter lib w0 (next r)) (lastStatus (next r))).1 = true
          ∧ k = fullKey r
          ∧ ∃ d : cacheData, d.Status = 200 ∧ v = (lib.jsonMarshal d).1)
      ∧ (cfg.EmergencyMode = true → storeSets (ServeHTTP lib cfg store next w0 r) = [])
      ∧ ((cacheable lib cfg r (headerAfter lib w0 (next r)) (lastStatus (next r))).1 = false →
          storeSets (ServeHTTP lib cfg store next w0 r) = [])
      ∧ (storeSets (ServeHTTP lib cfg store next w0 r)).length ≤ 1 := by
  have key : ∀ (hby : bypassingHeaders lib cfg r = false) (hem : cfg.EmergencyMode = false),
      storeSets (ServeHTTP lib cfg store next w0 r) =
        if (cacheable lib cfg r (headerAfter lib w0 (next r)) (lastStatus (next r))).1 then
          [(fullKey r,
            (lib.jsonMarshal
              { Status := lastStatus (next r)
                Headers := headerAfter lib w0 (next r)
                Body := (writtenChunks (next r)).flatten
                Created := lib.now }).1)]
        else [] := by
    intro hby hem
    have hobs := ServeHTTP_normal lib cfg store next w0 r hby hem
    have e : ∀ x : List Effect, Effect.next :: (next r).map Effect.client ++ x =
        (Effect.next :: (next r).map Effect.client) ++ x := fun _ => rfl
    rw [storeSets_of_observable _ _ hobs, e, storeSets_append, storeSets_upstream]
    split_ifs <;> rfl
  refine ⟨?_, storeSets_emergency lib cfg store next w0 r, ?_, ?_⟩
  · intro k v hmem
    have hs := mem_storeSets _ k v hmem
    by_cases hem : cfg.EmergencyMode = true
    · rw [storeSets_emergency lib cfg store next w0 r hem] at hs
      exact absurd hs (List.not_mem_nil _)
    · by_cases hby : bypassingHeaders lib cfg r = true
      · rw [ServeHTTP_bypass lib cfg store next w0 r hby, storeSets_upstream] at hs
        exact absurd hs (List.not_mem_nil _)
      · have hem1 : cfg.EmergencyMode = false := by simpa using hem
        have hby1 : bypassingHeaders lib cfg r = false := by simpa using hby
        rw [key hby1 hem1] at hs
        by_cases hc :
            (cacheable lib cfg r (headerAfter lib w0 (next r)) (lastStatus (next r))).1 = true
        · rw [if_pos hc, List.mem_singleton, Prod.mk.injEq] at hs
          refine ⟨hem1, ?_, hc, hs.1, _, ?_, hs.2⟩
          · intro hh
            simp [bypassingHeaders, hh] at hby1
          · exact cacheable_status lib cfg r _ _ hc
        · rw [if_neg hc] at hs
          exact absurd hs (List.not_mem_nil _)
  · intro hc
    by_cases hem : cfg.EmergencyMode = true
    · exact storeSets_emergency lib cfg store next w0 r hem
    · by_cases hby : bypassingHeaders lib cfg r = true
      · rw [ServeHTTP_bypass lib cfg store next w0 r hby, storeSets_upstream]
      · have hem1 : cfg.EmergencyMode = false := by simpa using hem
        have hby1 : bypassingHeaders lib cfg r = false := by simpa using hby
        rw [key hby1 hem1, hc]
        rfl
  · by_cases hem : cfg.EmergencyMode = true
    · rw [storeSets_emergency lib cfg store next w0 r hem]
      exact Nat.zero_le _
    · by_cases hby : bypassingHeaders lib cfg r = true
      · rw [ServeHTTP_bypass lib cfg store next w0 r hby, storeSets_upstream]
        exact Nat.zero_le _
      · have hem1 : cfg.EmergencyMode = false := by simpa using hem
        have hby1 : bypassingHeaders lib cfg r = false := by simpa using hby
        rw [key hby1 hem1]
        split_ifs <;> simp

theorem store_write_only_when_cacheable_witness :
    CreateConfig.EmergencyMode = false
      ∧ Header.Get sampleLib sampleRequest.Header CreateConfig.BypassHeader ≠ "no-cache"
      ∧ (cacheable sampleLib CreateConfig sampleRequest
          (headerAfter sampleLib [] (okHandler sampleRequest))
          (lastStatus (okHandler sampleRequest))).1 = true
      ∧ "a.com/x?y=1" = fullKey sampleRequest
      ∧ ∃ d : cacheData, d.Status = 200 ∧ some [111, 107] = (sampleLib.jsonMarshal d).1 :=
  (store_write_only_when_cacheable sampleLib CreateConfig storeDown okHandler [] sampleRequest).1
    "a.com/x?y=1" (some [111, 107]) (by decide)

end EmergencyCache
